import Mathlib

/-!
Verification development for the libfranka client-side control runtime.

The repository sources available here are the Gripper class header, the
motion_with_control example and the generate_cartesian_pose_motion example.
The core client library (Control Loop, Limit Validator, Diagnostic Ring
Buffer, Session) is declared and exercised by these files but its own code
is not present, so those components are modelled from the specification
(each such definition carries a doc comment starting with
`Modelled from the spec:`).  The example callback of motion_with_control is
translated directly from its source.
-/

/-- Modelled from the spec: a RobotState snapshot carries measured and
desired joint values and a monotonically increasing sequence/time counter
(`seq`, in milliseconds).  Only the fields the verified properties touch
are kept. -/
structure RobotState where
  seq : Nat
  q : List Int
  dq : List Int
  deriving DecidableEq

/-- Modelled from the spec: completion tag of a callback result, a tagged
union of Continue, MotionFinished and Stop. -/
inductive Sentinel where
  | cont
  | motionFinished
  | stop
  deriving DecidableEq

/-- Modelled from the spec: a command is the per-axis commanded values
(motion values, with torques appended when a torque callback is
configured) together with the finished flag. -/
structure Command where
  values : List Int
  finishedFlag : Bool
  deriving DecidableEq

/-- Modelled from the spec: per-axis configured thresholds — the absolute
bound and the per-cycle rate bound for each axis/field. -/
structure Limits where
  maxAbs : List Nat
  maxRate : List Nat
  deriving DecidableEq

/-- Modelled from the spec: check (a) of the Limit Validator — each
commanded absolute value is within the configured per-axis threshold. -/
def withinAbsLimits (maxAbs : List Nat) (vals : List Int) : Bool :=
  (vals.zip maxAbs).all fun p => decide (p.1.natAbs ≤ p.2)

/-- Modelled from the spec: check (b) of the Limit Validator — each
value's change versus the previous cycle does not exceed the configured
per-cycle rate bound (discontinuity check). -/
def withinRateLimits (maxRate : List Nat) (prev vals : List Int) : Bool :=
  ((vals.zip prev).zip maxRate).all fun p => decide ((p.1.1 - p.1.2).natAbs ≤ p.2)

/-- Modelled from the spec: the Limit Validator — given the previous
command (or none, on the first cycle) and the newly computed command,
accept exactly when both the absolute check and, when a previous command
exists, the discontinuity check pass. -/
def checkLimits (lim : Limits) (prev : Option (List Int)) (vals : List Int) : Bool :=
  withinAbsLimits lim.maxAbs vals &&
    (match prev with
     | none => true
     | some p => withinRateLimits lim.maxRate p vals)

/-- Modelled from the spec: one entry of the Diagnostic Ring Buffer — a
(RobotState, Command, timestamp) triple. -/
structure LogRecord where
  state : RobotState
  command : Command
  timestamp : Nat
  deriving DecidableEq

/-- Modelled from the spec: the Diagnostic Ring Buffer, a fixed-capacity
rolling history kept oldest-to-newest. -/
structure RingBuffer (α : Type) where
  capacity : Nat
  data : List α
  deriving DecidableEq

/-- Modelled from the spec: record appends, overwriting the oldest entry
once at capacity. -/
def RingBuffer.record {α : Type} (rb : RingBuffer α) (x : α) : RingBuffer α :=
  ⟨rb.capacity, ((rb.data ++ [x]).drop (rb.data.length + 1 - rb.capacity))⟩

/-- Modelled from the spec: snapshot returns the current contents
oldest-to-newest. -/
def RingBuffer.snapshot {α : Type} (rb : RingBuffer α) : List α :=
  rb.data

/-- An empty ring buffer of capacity `n`. -/
def RingBuffer.empty (α : Type) (n : Nat) : RingBuffer α :=
  ⟨n, []⟩

/-- Record a whole sequence of entries in arrival order. -/
def RingBuffer.recordAll {α : Type} (rb : RingBuffer α) (xs : List α) : RingBuffer α :=
  xs.foldl RingBuffer.record rb

theorem RingBuffer.record_capacity {α : Type} (rb : RingBuffer α) (x : α) :
    (rb.record x).capacity = rb.capacity := rfl

theorem RingBuffer.record_data {α : Type} (rb : RingBuffer α) (x : α) :
    (rb.record x).data = (rb.data ++ [x]).drop (rb.data.length + 1 - rb.capacity) := rfl

theorem RingBuffer.record_length_le {α : Type} (rb : RingBuffer α) (x : α)
    (h : rb.data.length ≤ rb.capacity) :
    (rb.record x).data.length ≤ rb.capacity := by
  simp only [RingBuffer.record, List.length_drop, List.length_append, List.length_cons,
    List.length_nil]
  omega

theorem RingBuffer.recordAll_data {α : Type} (xs : List α) (rb : RingBuffer α)
    (h : rb.data.length ≤ rb.capacity) :
    (rb.recordAll xs).data
      = (rb.data ++ xs).drop (rb.data.length + xs.length - rb.capacity) := by
  induction xs generalizing rb with
  | nil =>
    simp only [RingBuffer.recordAll, List.foldl_nil, List.append_nil, List.length_nil]
    have hz : rb.data.length + 0 - rb.capacity = 0 := by omega
    rw [hz, List.drop_zero]
  | cons x xs ih =>
    have hstep : (rb.record x).data.length ≤ rb.capacity :=
      RingBuffer.record_length_le rb x h
    have hcap : (rb.record x).capacity = rb.capacity := rfl
    have := ih (rb.record x) (by rw [hcap]; exact hstep)
    simp only [RingBuffer.recordAll, List.foldl_cons] at *
    rw [this, hcap, RingBuffer.record_data]
    by_cases hc : rb.data.length + 1 ≤ rb.capacity
    · have h0 : rb.data.length + 1 - rb.capacity = 0 := by omega
      rw [h0, List.drop_zero]
      simp only [List.length_append, List.length_cons, List.length_nil,
        List.append_assoc, List.cons_append, List.nil_append, List.length_cons]
      congr 1
      omega
    · have hlen : ((rb.data ++ [x]).drop (rb.data.length + 1 - rb.capacity)).length
          = rb.capacity := by
        simp only [List.length_drop, List.length_append, List.length_cons, List.length_nil]
        omega
      rw [hlen]
      rw [← List.drop_append_of_le_length (by
        simp only [List.length_append, List.length_cons, List.length_nil]; omega)]
      rw [List.drop_drop]
      simp only [List.append_assoc, List.cons_append, List.nil_append,
        List.length_append, List.length_cons]
      congr 1
      omega

/-- Modelled from the spec: the result of one callback invocation — the
computed per-axis values together with the completion tag (a plain value
carries Continue, a MotionFinished-wrapped value carries that sentinel,
and the Stop sentinel carries no further values). -/
structure CallbackOutput where
  values : List Int
  sentinel : Sentinel
  deriving DecidableEq

/-- A user callback: robot state and duration (milliseconds since the
previous cycle) to a callback output. -/
def Callback : Type :=
  RobotState → Nat → CallbackOutput

/-- Modelled from the spec: tie-break between the motion-generator and the
controller sentinel — Stop takes precedence over MotionFinished
(immediate halt over graceful final command). -/
def combineSentinels (a b : Sentinel) : Sentinel :=
  if a = Sentinel.stop ∨ b = Sentinel.stop then Sentinel.stop
  else if a = Sentinel.motionFinished ∨ b = Sentinel.motionFinished then
    Sentinel.motionFinished
  else Sentinel.cont

/-- Modelled from the spec: combine the motion command with the optional
torque output — one command whose values are the motion values followed by
the torque values, with the tie-broken sentinel. -/
def combineOutputs (mo : CallbackOutput) (to? : Option CallbackOutput) : CallbackOutput :=
  match to? with
  | none => mo
  | some t => ⟨mo.values ++ t.values, combineSentinels mo.sentinel t.sentinel⟩

/-- Modelled from the spec: the phase of a Control Loop activation after a
cycle — still Running, terminated in Finished, or terminated in Aborted
with the ControlError diagnostic snapshot attached. -/
inductive Phase where
  | running
  | finished
  | aborted (snapshot : List LogRecord)
  deriving DecidableEq

/-- Modelled from the spec: the mutable state the Control Loop carries
from cycle to cycle — the previous command values (none on the first
cycle), the previous state's sequence/time counter, whether the next cycle
is the first (duration zero), and the Diagnostic Ring Buffer. -/
structure LoopState where
  prev : Option (List Int)
  prevSeq : Nat
  firstCycle : Bool
  rb : RingBuffer LogRecord
  deriving DecidableEq

/-- Modelled from the spec: the duration delivered to callbacks — zero on
the first cycle, otherwise the elapsed counter difference since the
previous state. -/
def cycleDuration (ls : LoopState) (st : RobotState) : Nat :=
  if ls.firstCycle then 0 else st.seq - ls.prevSeq

/-- The callback output computed in the cycle that receives `st`. -/
def cycleOutput (mcb : Callback) (tcb : Option Callback) (ls : LoopState)
    (st : RobotState) : CallbackOutput :=
  let d := cycleDuration ls st
  combineOutputs (mcb st d) (tcb.map fun t => t st d)

/-- The command built from a callback output (finished flag set exactly on
the MotionFinished sentinel). -/
def commandOf (out : CallbackOutput) : Command :=
  ⟨out.values, out.sentinel = Sentinel.motionFinished⟩

/-- Modelled from the spec: one Running cycle of the Control Loop state
machine.  The state has been received; the callbacks are invoked with the
duration; a Stop sentinel terminates immediately with no further command;
otherwise the command is checked by the Limit Validator (rejection aborts
with the ring-buffer snapshot and sends nothing), recorded into the ring
buffer, and sent; a MotionFinished sentinel makes this the final sent
command.  Returns the commands transmitted this cycle, the next loop
state, and the phase after the cycle. -/
def runCycle (lim : Limits) (mcb : Callback) (tcb : Option Callback)
    (ls : LoopState) (st : RobotState) : List Command × LoopState × Phase :=
  let out := cycleOutput mcb tcb ls st
  if out.sentinel = Sentinel.stop then
    ([], ls, Phase.finished)
  else if checkLimits lim ls.prev out.values then
    let cmd := commandOf out
    let rb := ls.rb.record ⟨st, cmd, st.seq⟩
    ([cmd], ⟨some out.values, st.seq, false, rb⟩,
      if out.sentinel = Sentinel.motionFinished then Phase.finished
      else Phase.running)
  else
    ([], ls, Phase.aborted ls.rb.snapshot)

/-- The result of driving a Control Loop activation over a finite prefix
of the incoming state stream. -/
structure LoopResult where
  sent : List Command
  consumed : List RobotState
  phase : Phase
  final : LoopState
  deriving DecidableEq

/-- Modelled from the spec: the Running loop — one receive/compute/
validate/record/send cycle per incoming state, repeated until the phase
leaves Running or the given state stream is exhausted.  `sent` lists the
transmitted commands in transmission order and `consumed` the states
received, in arrival order. -/
def runLoop (lim : Limits) (mcb : Callback) (tcb : Option Callback)
    (ls : LoopState) : List RobotState → LoopResult
  | [] => ⟨[], [], Phase.running, ls⟩
  | st :: rest =>
    match runCycle lim mcb tcb ls st with
    | (sent, ls1, Phase.running) =>
      let r := runLoop lim mcb tcb ls1 rest
      ⟨sent ++ r.sent, st :: r.consumed, r.phase, r.final⟩
    | (sent, ls1, ph) => ⟨sent, [st], ph, ls1⟩

/-- The commands a run is expected to transmit, one per state in arrival
order, computed by the same duration bookkeeping the loop performs. -/
def expectedSent (mcb : Callback) (tcb : Option Callback) :
    LoopState → List RobotState → List Command
  | _, [] => []
  | ls, st :: rest =>
    let out := cycleOutput mcb tcb ls st
    commandOf out ::
      expectedSent mcb tcb ⟨some out.values, st.seq, false,
        ls.rb.record ⟨st, commandOf out, st.seq⟩⟩ rest

/-- Modelled from the spec: the handshake reply from the server — its
protocol version and the control rate. -/
structure ServerHello where
  version : Nat
  controlRate : Nat
  deriving DecidableEq

/-- Modelled from the spec: the error taxonomy of Session operations. -/
inductive SessionError where
  | networkError
  | incompatibleVersionError
  | protocolError
  deriving DecidableEq

/-- Modelled from the spec: the transport channel is either released or
held open. -/
inductive ChannelState where
  | closedChannel
  | openChannel
  deriving DecidableEq

/-- Modelled from the spec: a successfully connected Session — the open
channel it owns and the server version fetched at handshake. -/
structure SessionConn where
  channel : ChannelState
  serverVersion : Nat
  deriving DecidableEq

/-- Modelled from the spec: Session.Connect — open the channel to the
host, send the client hello and await the server hello (`none` models a
connect timeout/refusal).  A missing reply fails with NetworkError; a
server protocol version outside the supported set fails with
IncompatibleVersionError; scoped acquisition releases the channel on every
failing path.  Returns the outcome together with the channel state left
behind. -/
def connect (supported : Nat → Bool) (reply : Option ServerHello) :
    Except SessionError SessionConn × ChannelState :=
  let ch := ChannelState.openChannel
  match reply with
  | none => (Except.error SessionError.networkError, ChannelState.closedChannel)
  | some hello =>
    if supported hello.version then
      (Except.ok ⟨ch, hello.version⟩, ch)
    else
      (Except.error SessionError.incompatibleVersionError, ChannelState.closedChannel)

/-- Modelled from the spec: the connection a Robot facade owns —
whether a session is established, the controller's pending periodic state
stream, the counter of the last delivered state (sequence numbers strictly
increase within a session; a counter that fails to increase is a protocol
violation), and every command transmitted so far. -/
structure RobotConn where
  connected : Bool
  incoming : List RobotState
  lastSeq : Option Nat
  sentCommands : List Command
  deriving DecidableEq

/-- Modelled from the spec: Session.receiveState — deliver the next
periodic state message.  An exhausted stream models a receive timeout
(NetworkError); a delivered state whose sequence counter does not increase
past the previous one is a protocol violation. -/
def receiveState (rc : RobotConn) : Except SessionError (RobotState × RobotConn) :=
  match rc.incoming with
  | [] => Except.error SessionError.networkError
  | st :: rest =>
    match rc.lastSeq with
    | some l =>
      if l < st.seq then
        Except.ok (st, ⟨rc.connected, rest, some st.seq, rc.sentCommands⟩)
      else
        Except.error SessionError.protocolError
    | none => Except.ok (st, ⟨rc.connected, rest, some st.seq, rc.sentCommands⟩)

/-- Modelled from the spec: Robot.readOnce — a degenerate one-cycle
activation: connect if needed, receive exactly one state and return it;
no command is sent. -/
def readOnce (rc : RobotConn) : Except SessionError (RobotState × RobotConn) :=
  receiveState ⟨true, rc.incoming, rc.lastSeq, rc.sentCommands⟩

/-- Translated from the joint-velocity motion callback of
motion_with_control (src/unnamed/part_001, lines 165-179): the captured
index is advanced by the duration in milliseconds, clamped to the last
trajectory position once it reaches the end, the velocity for the selected
joint is read from the trajectory at the clamped index, and the result is
wrapped in MotionFinished exactly when the clamped index has reached the
last position.  Returns the updated captured index, the trajectory value
read, and whether MotionFinished wraps the result. -/
def motionCallbackStep (trajectory : List Int) (index timeStepMSec : Nat) :
    Nat × Option Int × Bool :=
  let idx := index + timeStepMSec
  let idx := if trajectory.length ≤ idx then trajectory.length - 1 else idx
  (idx, trajectory.get? idx, decide (trajectory.length - 1 ≤ idx))

/-- C5: the Diagnostic Ring Buffer never holds more than its fixed
capacity N — recording preserves the capacity bound — and after recording
N + k entries (k ≥ 1) into an empty buffer, snapshot returns exactly the
last N records in arrival order (the oldest k evicted first). -/
theorem ringBuffer_capacity_and_snapshot (α : Type) (N k : Nat) (xs : List α)
    (hk : 1 ≤ k) (hlen : xs.length = N + k) :
    (∀ (rb : RingBuffer α) (x : α), rb.data.length ≤ rb.capacity →
        (rb.record x).data.length ≤ rb.capacity) ∧
    ((RingBuffer.empty α N).recordAll xs).snapshot = xs.drop k ∧
    ((RingBuffer.empty α N).recordAll xs).snapshot.length = N := by
  have h := RingBuffer.recordAll_data xs (RingBuffer.empty α N)
    (by simp [RingBuffer.empty])
  simp only [RingBuffer.empty, List.nil_append, List.length_nil, Nat.zero_add] at h
  have hdrop : xs.length - N = k := by omega
  refine ⟨fun rb x hle => RingBuffer.record_length_le rb x hle, ?_, ?_⟩
  · simp only [RingBuffer.snapshot, RingBuffer.empty]
    rw [h, hdrop]
  · simp only [RingBuffer.snapshot, RingBuffer.empty]
    rw [h, hdrop, List.length_drop]
    omega

/-- Witness for C5 at capacity two with four records. -/
theorem ringBuffer_capacity_and_snapshot_witness :
    (∀ (rb : RingBuffer Nat) (x : Nat), rb.data.length ≤ rb.capacity →
        (rb.record x).data.length ≤ rb.capacity) ∧
    ((RingBuffer.empty Nat 2).recordAll [1, 2, 3, 4]).snapshot = [1, 2, 3, 4].drop 2 ∧
    ((RingBuffer.empty Nat 2).recordAll [1, 2, 3, 4]).snapshot.length = 2 :=
  ringBuffer_capacity_and_snapshot Nat 2 2 [1, 2, 3, 4] (by decide) (by decide)

/-- C9: in the joint-velocity motion callback of motion_with_control, for
every non-empty trajectory and every cycle the index used to read the
trajectory is clamped to at most the last position, the read is in bounds
after clamping, and the callback returns MotionFinished exactly when the
clamped index equals the last position. -/
theorem motionCallback_clamped_and_finished (trajectory : List Int)
    (index timeStepMSec : Nat) (hne : trajectory ≠ []) :
    (motionCallbackStep trajectory index timeStepMSec).1 ≤ trajectory.length - 1 ∧
    ((motionCallbackStep trajectory index timeStepMSec).2.1).isSome = true ∧
    ((motionCallbackStep trajectory index timeStepMSec).2.2 = true ↔
      (motionCallbackStep trajectory index timeStepMSec).1 = trajectory.length - 1) := by
  have hpos : 0 < trajectory.length := List.length_pos.mpr hne
  simp only [motionCallbackStep]
  by_cases hc : trajectory.length ≤ index + timeStepMSec
  · simp only [if_pos hc]
    refine ⟨Nat.le_refl _, ?_, ?_⟩
    · simp [List.get?_eq_getElem?,
        List.getElem?_eq_getElem (by omega : trajectory.length - 1 < trajectory.length)]
    · simp
  · simp only [if_neg hc]
    push_neg at hc
    refine ⟨by omega, ?_, ?_⟩
    · simp [List.get?_eq_getElem?,
        List.getElem?_eq_getElem (by omega : index + timeStepMSec < trajectory.length)]
    · constructor
      · intro h
        have := of_decide_eq_true h
        omega
      · intro h
        exact decide_eq_true (by omega)

/-- Witness for C9 on the two-element trajectory, starting index zero,
one-millisecond step. -/
theorem motionCallback_clamped_and_finished_witness :
    (motionCallbackStep [5, 7] 0 1).1 ≤ [(5 : Int), 7].length - 1 ∧
    ((motionCallbackStep [5, 7] 0 1).2.1).isSome = true ∧
    ((motionCallbackStep [5, 7] 0 1).2.2 = true ↔
      (motionCallbackStep [5, 7] 0 1).1 = [(5 : Int), 7].length - 1) :=
  motionCallback_clamped_and_finished [5, 7] 0 1 (by decide)

/-- C6: a handshake in which the server reports a protocol version outside
the supported set yields IncompatibleVersionError and leaves no open
channel behind. -/
theorem connect_incompatible_version (supported : Nat → Bool)
    (hello : ServerHello) (h : supported hello.version = false) :
    connect supported (some hello)
      = (Except.error SessionError.incompatibleVersionError,
          ChannelState.closedChannel) := by
  simp [connect, h]

/-- Witness for C6 with a server that supports no version, reporting
version five. -/
theorem connect_incompatible_version_witness :
    connect (fun _ => false) (some ⟨5, 1000⟩)
      = (Except.error SessionError.incompatibleVersionError,
          ChannelState.closedChannel) :=
  connect_incompatible_version (fun _ => false) ⟨5, 1000⟩ rfl

/-- C7: two successive readOnce calls that both succeed return states
whose sequence counters strictly increase, and no command is issued by
either call. -/
theorem readOnce_twice_increasing_no_command (rc rc1 rc2 : RobotConn)
    (s1 s2 : RobotState)
    (h1 : readOnce rc = Except.ok (s1, rc1))
    (h2 : readOnce rc1 = Except.ok (s2, rc2)) :
    s1.seq < s2.seq ∧ rc2.sentCommands = rc.sentCommands := by
  obtain ⟨c, inc, lsq, sc⟩ := rc
  cases inc with
  | nil => simp [readOnce, receiveState] at h1
  | cons st rest =>
    have hfirst : s1 = st ∧ rc1 = ⟨true, rest, some st.seq, sc⟩ := by
      cases lsq with
      | none =>
        simp only [readOnce, receiveState, Except.ok.injEq, Prod.mk.injEq] at h1
        exact ⟨h1.1.symm, h1.2.symm⟩
      | some l =>
        simp only [readOnce, receiveState] at h1
        split at h1
        · simp only [Except.ok.injEq, Prod.mk.injEq] at h1
          exact ⟨h1.1.symm, h1.2.symm⟩
        · exact absurd h1 (by simp)
    obtain ⟨hs1, hrc1⟩ := hfirst
    subst hs1
    subst hrc1
    cases rest with
    | nil => simp [readOnce, receiveState] at h2
    | cons st2 rest2 =>
      simp only [readOnce, receiveState] at h2
      split at h2
      · rename_i hlt
        simp only [Except.ok.injEq, Prod.mk.injEq] at h2
        obtain ⟨hs2, hrc2⟩ := h2
        subst hs2
        refine ⟨hlt, ?_⟩
        rw [← hrc2]
      · exact absurd h2 (by simp)

/-- Witness for C7 on a fresh connection with a two-state stream. -/
theorem readOnce_twice_increasing_no_command_witness :
    (⟨1, [], []⟩ : RobotState).seq < (⟨2, [], []⟩ : RobotState).seq ∧
    (⟨true, [], some 2, []⟩ : RobotConn).sentCommands
      = (⟨false, [⟨1, [], []⟩, ⟨2, [], []⟩], none, []⟩ : RobotConn).sentCommands :=
  readOnce_twice_increasing_no_command
    ⟨false, [⟨1, [], []⟩, ⟨2, [], []⟩], none, []⟩
    ⟨true, [⟨2, [], []⟩], some 1, []⟩
    ⟨true, [], some 2, []⟩ ⟨1, [], []⟩ ⟨2, [], []⟩ rfl rfl

theorem withinAbsLimits_eq_false (maxAbs : List Nat) (vals : List Int) (i : Nat)
    (hv : i < vals.length) (hm : i < maxAbs.length)
    (hviol : maxAbs[i] < (vals[i]).natAbs) :
    withinAbsLimits maxAbs vals = false := by
  rw [withinAbsLimits]
  by_contra hall
  rw [Bool.not_eq_false, List.all_eq_true] at hall
  have hi : i < (vals.zip maxAbs).length := by
    rw [List.length_zip]
    omega
  have hg : (vals.zip maxAbs)[i] = (vals[i], maxAbs[i]) := List.getElem_zip
  have hmem : ((vals[i], maxAbs[i]) : Int × Nat) ∈ vals.zip maxAbs := by
    rw [← hg]
    exact List.getElem_mem hi
  have := of_decide_eq_true (hall _ hmem)
  simp only at this
  omega

theorem withinRateLimits_eq_false (maxRate : List Nat) (prev vals : List Int)
    (i : Nat) (hv : i < vals.length) (hp : i < prev.length)
    (hr : i < maxRate.length)
    (hviol : maxRate[i] < (vals[i] - prev[i]).natAbs) :
    withinRateLimits maxRate prev vals = false := by
  rw [withinRateLimits]
  by_contra hall
  rw [Bool.not_eq_false, List.all_eq_true] at hall
  have hi0 : i < (vals.zip prev).length := by
    rw [List.length_zip]
    omega
  have hi : i < ((vals.zip prev).zip maxRate).length := by
    rw [List.length_zip, List.length_zip]
    omega
  have hg0 : (vals.zip prev)[i] = (vals[i], prev[i]) := List.getElem_zip
  have hg : ((vals.zip prev).zip maxRate)[i] = ((vals.zip prev)[i], maxRate[i]) :=
    List.getElem_zip
  rw [hg0] at hg
  have hmem : (((vals[i], prev[i]), maxRate[i]) : (Int × Int) × Nat)
      ∈ (vals.zip prev).zip maxRate := by
    rw [← hg]
    exact List.getElem_mem hi
  have := of_decide_eq_true (hall _ hmem)
  simp only at this
  omega

/-- C3: a command one of whose fields exceeds the configured absolute
limit is rejected by the Limit Validator before transmission — nothing is
sent that cycle, the activation transitions to Aborted, and the raised
ControlError carries the Ring Buffer snapshot. -/
theorem limit_violation_rejected_and_aborted (lim : Limits) (mcb : Callback)
    (tcb : Option Callback) (ls : LoopState) (st : RobotState) (i : Nat)
    (hv : i < (cycleOutput mcb tcb ls st).values.length)
    (hm : i < lim.maxAbs.length)
    (hviol : lim.maxAbs[i] < ((cycleOutput mcb tcb ls st).values[i]).natAbs)
    (hns : (cycleOutput mcb tcb ls st).sentinel ≠ Sentinel.stop) :
    checkLimits lim ls.prev (cycleOutput mcb tcb ls st).values = false ∧
    runCycle lim mcb tcb ls st = ([], ls, Phase.aborted ls.rb.snapshot) := by
  have habs := withinAbsLimits_eq_false lim.maxAbs
    (cycleOutput mcb tcb ls st).values i hv hm hviol
  have hchk : checkLimits lim ls.prev (cycleOutput mcb tcb ls st).values = false := by
    cases ls.prev <;> simp [checkLimits, habs]
  refine ⟨hchk, ?_⟩
  simp only [runCycle]
  rw [if_neg hns]
  simp [hchk]

/-- Concrete fixture: limits of twenty per axis on one axis. -/
def witnessLimits : Limits := ⟨[20], [20]⟩

/-- Concrete fixture: a motion callback commanding twenty-five on the one
axis, never signalling completion. -/
def witnessOverCb : Callback := fun _ _ => ⟨[25], Sentinel.cont⟩

/-- Concrete fixture: a loop state before the first cycle with an empty
three-slot ring buffer. -/
def witnessLoopState : LoopState := ⟨none, 0, true, RingBuffer.empty LogRecord 3⟩

/-- Concrete fixture: a first robot state. -/
def witnessState : RobotState := ⟨0, [], []⟩

/-- Witness for C3: commanding twenty-five against an absolute limit of
twenty is rejected with nothing sent and the activation aborted. -/
theorem limit_violation_rejected_and_aborted_witness :
    checkLimits witnessLimits witnessLoopState.prev
        (cycleOutput witnessOverCb none witnessLoopState witnessState).values = false ∧
    runCycle witnessLimits witnessOverCb none witnessLoopState witnessState
      = ([], witnessLoopState, Phase.aborted witnessLoopState.rb.snapshot) :=
  limit_violation_rejected_and_aborted witnessLimits witnessOverCb none
    witnessLoopState witnessState 0 (by decide) (by decide) (by decide) (by decide)

/-- C4: a command whose per-cycle change versus the previous command
exceeds the configured rate bound is rejected by the Limit Validator even
when its absolute values are all within the configured limits. -/
theorem rate_violation_rejected (lim : Limits) (prev vals : List Int) (i : Nat)
    (hv : i < vals.length) (hp : i < prev.length) (hr : i < lim.maxRate.length)
    (habs : withinAbsLimits lim.maxAbs vals = true)
    (hviol : lim.maxRate[i] < (vals[i] - prev[i]).natAbs) :
    checkLimits lim (some prev) vals = false := by
  have hrate := withinRateLimits_eq_false lim.maxRate prev vals i hv hp hr hviol
  show (withinAbsLimits lim.maxAbs vals && withinRateLimits lim.maxRate prev vals) = false
  rw [habs, hrate, Bool.and_false]

/-- Witness for C4: a step from minus fifteen to fifteen stays within the
absolute limit of twenty but exceeds the rate bound of twenty. -/
theorem rate_violation_rejected_witness :
    checkLimits witnessLimits (some [-15]) [15] = false :=
  rate_violation_rejected witnessLimits [-15] [15] 0 (by decide) (by decide)
    (by decide) (by decide) (by decide)

/-- C2: a cycle whose callback output carries the MotionFinished sentinel
still validates and sends the wrapped command and then transitions to
Finished (an invalid final command is instead rejected and aborts), while
a Stop cycle sends nothing; hence a MotionFinished termination sends
exactly one more command than a Stop termination would. -/
theorem motionFinished_sends_final_command (lim : Limits) (mcb : Callback)
    (tcb : Option Callback) :
    (∀ ls st, (cycleOutput mcb tcb ls st).sentinel = Sentinel.motionFinished →
        checkLimits lim ls.prev (cycleOutput mcb tcb ls st).values = true →
        (runCycle lim mcb tcb ls st).1 = [commandOf (cycleOutput mcb tcb ls st)] ∧
        (runCycle lim mcb tcb ls st).2.2 = Phase.finished) ∧
    (∀ ls st, (cycleOutput mcb tcb ls st).sentinel = Sentinel.motionFinished →
        checkLimits lim ls.prev (cycleOutput mcb tcb ls st).values = false →
        (runCycle lim mcb tcb ls st).1 = [] ∧
        (runCycle lim mcb tcb ls st).2.2 = Phase.aborted ls.rb.snapshot) ∧
    (∀ ls st, (cycleOutput mcb tcb ls st).sentinel = Sentinel.stop →
        (runCycle lim mcb tcb ls st).1 = [] ∧
        (runCycle lim mcb tcb ls st).2.2 = Phase.finished) ∧
    (∀ ls st ls' st',
        (cycleOutput mcb tcb ls st).sentinel = Sentinel.motionFinished →
        checkLimits lim ls.prev (cycleOutput mcb tcb ls st).values = true →
        (cycleOutput mcb tcb ls' st').sentinel = Sentinel.stop →
        (runCycle lim mcb tcb ls st).1.length
          = (runCycle lim mcb tcb ls' st').1.length + 1) := by
  have hfin : ∀ ls st,
      (cycleOutput mcb tcb ls st).sentinel = Sentinel.motionFinished →
      checkLimits lim ls.prev (cycleOutput mcb tcb ls st).values = true →
      (runCycle lim mcb tcb ls st).1 = [commandOf (cycleOutput mcb tcb ls st)] ∧
      (runCycle lim mcb tcb ls st).2.2 = Phase.finished := by
    intro ls st hms hchk
    simp [runCycle, hms, hchk]
  have hstp : ∀ ls st, (cycleOutput mcb tcb ls st).sentinel = Sentinel.stop →
      (runCycle lim mcb tcb ls st).1 = [] ∧
      (runCycle lim mcb tcb ls st).2.2 = Phase.finished := by
    intro ls st hms
    simp [runCycle, hms]
  refine ⟨hfin, ?_, hstp, ?_⟩
  · intro ls st hms hchk
    simp [runCycle, hms, hchk]
  · intro ls st ls' st' hms hchk hms2
    rw [(hfin ls st hms hchk).1, (hstp ls' st' hms2).1]
    rfl

/-- Concrete fixture: a callback that wraps its value in MotionFinished
for the first state and returns the Stop sentinel for any later state. -/
def witnessFinCb : Callback := fun st _ =>
  if st.seq = 0 then ⟨[0], Sentinel.motionFinished⟩ else ⟨[0], Sentinel.stop⟩

/-- Witness for C2: with the fixture callback, the MotionFinished cycle
sends exactly one more command than the Stop cycle. -/
theorem motionFinished_sends_final_command_witness :
    (runCycle witnessLimits witnessFinCb none witnessLoopState witnessState).1.length
      = (runCycle witnessLimits witnessFinCb none witnessLoopState
          ⟨1, [], []⟩).1.length + 1 :=
  (motionFinished_sends_final_command witnessLimits witnessFinCb none).2.2.2
    witnessLoopState witnessState witnessLoopState ⟨1, [], []⟩
    (by decide) (by decide) (by decide)

/-- C8: when the motion-generator callback and the torque-control callback
signal completion with different sentinels in the same cycle, Stop takes
precedence over MotionFinished — the loop halts at once, transitioning to
Finished without sending the MotionFinished final command. -/
theorem stop_precedence_over_motionFinished (lim : Limits) (mcb tcb : Callback)
    (ls : LoopState) (st : RobotState)
    (h : ((mcb st (cycleDuration ls st)).sentinel = Sentinel.motionFinished ∧
          (tcb st (cycleDuration ls st)).sentinel = Sentinel.stop) ∨
         ((mcb st (cycleDuration ls st)).sentinel = Sentinel.stop ∧
          (tcb st (cycleDuration ls st)).sentinel = Sentinel.motionFinished)) :
    (runCycle lim mcb (some tcb) ls st).1 = [] ∧
    (runCycle lim mcb (some tcb) ls st).2.2 = Phase.finished := by
  have hsent : (cycleOutput mcb (some tcb) ls st).sentinel = Sentinel.stop := by
    rcases h with ⟨h1, h2⟩ | ⟨h1, h2⟩ <;>
      simp [cycleOutput, combineOutputs, combineSentinels, h1, h2]
  simp [runCycle, hsent]

/-- Concrete fixture: a motion callback that always wraps its value in
MotionFinished. -/
def witnessAlwaysFinCb : Callback := fun _ _ => ⟨[0], Sentinel.motionFinished⟩

/-- Concrete fixture: a torque callback that always returns the Stop
sentinel. -/
def witnessAlwaysStopCb : Callback := fun _ _ => ⟨[0], Sentinel.stop⟩

/-- Witness for C8: MotionFinished from the motion callback together with
Stop from the torque callback halts without sending. -/
theorem stop_precedence_over_motionFinished_witness :
    (runCycle witnessLimits witnessAlwaysFinCb (some witnessAlwaysStopCb)
        witnessLoopState witnessState).1 = [] ∧
    (runCycle witnessLimits witnessAlwaysFinCb (some witnessAlwaysStopCb)
        witnessLoopState witnessState).2.2 = Phase.finished :=
  stop_precedence_over_motionFinished witnessLimits witnessAlwaysFinCb
    witnessAlwaysStopCb witnessLoopState witnessState (Or.inl ⟨rfl, rfl⟩)

/-- C1: for every activation whose callbacks always produce commands that
pass the Limit Validator and never signal Stop, the Control Loop sends
exactly one command per received robot state, and the sent commands are,
in transmission order, exactly the commands computed from the received
states in arrival order. -/
theorem one_command_per_state_in_order (lim : Limits) (mcb : Callback)
    (tcb : Option Callback) (states : List RobotState) (ls : LoopState)
    (hns : ∀ ls1 st, (cycleOutput mcb tcb ls1 st).sentinel ≠ Sentinel.stop)
    (hok : ∀ ls1 st,
      checkLimits lim ls1.prev (cycleOutput mcb tcb ls1 st).values = true) :
    (runLoop lim mcb tcb ls states).sent.length
      = (runLoop lim mcb tcb ls states).consumed.length ∧
    (runLoop lim mcb tcb ls states).sent
      = expectedSent mcb tcb ls (runLoop lim mcb tcb ls states).consumed := by
  induction states generalizing ls with
  | nil => exact ⟨rfl, rfl⟩
  | cons st rest ih =>
    have hcyc : runCycle lim mcb tcb ls st
        = ([commandOf (cycleOutput mcb tcb ls st)],
           ⟨some (cycleOutput mcb tcb ls st).values, st.seq, false,
             ls.rb.record ⟨st, commandOf (cycleOutput mcb tcb ls st), st.seq⟩⟩,
           if (cycleOutput mcb tcb ls st).sentinel = Sentinel.motionFinished
             then Phase.finished else Phase.running) := by
      simp only [runCycle]
      rw [if_neg (hns ls st), if_pos (hok ls st)]
    by_cases hms : (cycleOutput mcb tcb ls st).sentinel = Sentinel.motionFinished
    · rw [if_pos hms] at hcyc
      simp only [runLoop, hcyc]
      exact ⟨rfl, by simp [expectedSent]⟩
    · rw [if_neg hms] at hcyc
      obtain ⟨ih1, ih2⟩ := ih ⟨some (cycleOutput mcb tcb ls st).values, st.seq,
        false, ls.rb.record ⟨st, commandOf (cycleOutput mcb tcb ls st), st.seq⟩⟩
      simp only [runLoop, hcyc]
      constructor
      · simp only [List.singleton_append, List.length_cons]
        rw [ih1]
      · simp only [expectedSent, List.singleton_append]
        exact congrArg (List.cons _) ih2

/-- Concrete fixture: a motion callback whose command carries no values,
so it passes the Limit Validator against every previous command. -/
def witnessEmptyCb : Callback := fun _ _ => ⟨[], Sentinel.cont⟩

/-- Witness for C1 on a two-state stream. -/
theorem one_command_per_state_in_order_witness :
    (runLoop witnessLimits witnessEmptyCb none witnessLoopState
        [⟨0, [], []⟩, ⟨1, [], []⟩]).sent.length
      = (runLoop witnessLimits witnessEmptyCb none witnessLoopState
          [⟨0, [], []⟩, ⟨1, [], []⟩]).consumed.length ∧
    (runLoop witnessLimits witnessEmptyCb none witnessLoopState
        [⟨0, [], []⟩, ⟨1, [], []⟩]).sent
      = expectedSent witnessEmptyCb none witnessLoopState
          (runLoop witnessLimits witnessEmptyCb none witnessLoopState
            [⟨0, [], []⟩, ⟨1, [], []⟩]).consumed :=
  one_command_per_state_in_order witnessLimits witnessEmptyCb none
    [⟨0, [], []⟩, ⟨1, [], []⟩] witnessLoopState
    (by
      intro ls1 st
      simp [cycleOutput, combineOutputs, witnessEmptyCb])
    (by
      intro ls1 st
      rcases hp : ls1.prev with _ | p
      · rfl
      · rfl)
